import Mathlib

/-!
# Verification of the first-rib tubercle-recovery post-processing step

Shallow embedding of `Post_Processing/tubercle_recovery.py`.

Modelling conventions:
* A 3D image index is a triple of integers `(x, y, z)`; a binary mask is the
  `Finset` of its foreground voxels.  The numpy arrays in the source are laid
  out `(z, y, x)`, but every computation there is index-wise, so we work with
  the ITK `(x, y, z)` index convention throughout.
* Python/ITK floating point arithmetic is modelled exactly over `ℚ`.
* ITK `TransformPhysicalPointToIndex` rounds half-integers up; Python `round`
  rounds half to even; both are modelled exactly.
* External services consumed by the script (SimpleITK) are given their
  documented mathematical semantics: Maurer distance maps are exact
  voxel-centre Euclidean distance transforms, `BinaryDilate`/closing use the
  flat ellipsoid ("ball") structuring element, `ConnectedComponent` and
  `ConnectedThreshold` use face connectivity (the ITK defaults).
  `BinaryThinning` (topological skeletonisation) has no simple closed-form
  semantics and is kept as an abstract function supplied in the environment;
  no claim depends on its internals.
-/

set_option maxRecDepth 20000

/-- A voxel index `(x, y, z)`. -/
abbrev Idx : Type := ℤ × ℤ × ℤ

/-- A physical point `(x, y, z)` in millimetres. -/
abbrev PhysPt : Type := ℚ × ℚ × ℚ

/-- Image geometry: size, origin and spacing, as carried by a SimpleITK image. -/
structure Geom where
  size : ℕ × ℕ × ℕ
  origin : ℚ × ℚ × ℚ
  spacing : ℚ × ℚ × ℚ
  deriving DecidableEq

/-- The set of valid indices of an image with geometry `g`. -/
def Geom.box (g : Geom) : Finset Idx :=
  ((Finset.range g.size.1 ×ˢ Finset.range g.size.2.1 ×ˢ Finset.range g.size.2.2).image
    (fun p => ((p.1 : ℤ), (p.2.1 : ℤ), (p.2.2 : ℤ))))

/-- Valid indices enumerated in ascending `(z, y, x)` lexicographic order —
the order in which `np.argwhere` reports voxels. -/
def Geom.boxList (g : Geom) : List Idx :=
  (List.range g.size.2.2).flatMap (fun z =>
    (List.range g.size.2.1).flatMap (fun y =>
      (List.range g.size.1).map (fun x => ((x : ℤ), (y : ℤ), (z : ℤ)))))

lemma Geom.mem_box {g : Geom} {v : Idx} :
    v ∈ g.box ↔ (0 ≤ v.1 ∧ v.1 < g.size.1) ∧ (0 ≤ v.2.1 ∧ v.2.1 < g.size.2.1) ∧
      (0 ≤ v.2.2 ∧ v.2.2 < g.size.2.2) := by
  obtain ⟨x, y, z⟩ := v
  simp only [Geom.box, Finset.mem_image, Finset.mem_product, Finset.mem_range, Prod.exists,
    Prod.mk.injEq]
  constructor
  · rintro ⟨a, b, c, ⟨ha, hb, hc⟩, h1, h2, h3⟩
    subst h1; subst h2; subst h3
    refine ⟨⟨?_, ?_⟩, ⟨?_, ?_⟩, ?_, ?_⟩ <;> omega
  · rintro ⟨⟨hx0, hx1⟩, ⟨hy0, hy1⟩, hz0, hz1⟩
    exact ⟨x.toNat, y.toNat, z.toNat, ⟨by omega, by omega, by omega⟩, by omega, by omega,
      by omega⟩

/-- ITK index-to-physical mapping: `origin + spacing * index`. -/
def Geom.phys (g : Geom) (v : Idx) : PhysPt :=
  (g.origin.1 + g.spacing.1 * v.1,
   g.origin.2.1 + g.spacing.2.1 * v.2.1,
   g.origin.2.2 + g.spacing.2.2 * v.2.2)

/-- ITK `Math::RoundHalfIntegerUp`, used by `TransformPhysicalPointToIndex`. -/
def rndHalfUp (q : ℚ) : ℤ := ⌊q + 1/2⌋

/-- Python `round`: round half to even (banker's rounding). -/
def pyRound (q : ℚ) : ℤ :=
  let f := ⌊q⌋
  let r := q - f
  if r < 1/2 then f else if 1/2 < r then f + 1 else if Even f then f else f + 1

/-- ITK physical-to-index mapping (`TransformPhysicalPointToIndex`). -/
def Geom.idxOf (g : Geom) (p : PhysPt) : Idx :=
  (rndHalfUp ((p.1 - g.origin.1) / g.spacing.1),
   rndHalfUp ((p.2.1 - g.origin.2.1) / g.spacing.2.1),
   rndHalfUp ((p.2.2 - g.origin.2.2) / g.spacing.2.2))

lemma rndHalfUp_intCast (n : ℤ) : rndHalfUp (n : ℚ) = n := by
  unfold rndHalfUp
  rw [Int.floor_eq_iff]
  constructor
  · linarith
  · linarith

/-- Round trip: a voxel's physical point maps back to the same index
whenever the spacing is positive. -/
lemma Geom.idxOf_phys (g : Geom) (v : Idx) (h1 : 0 < g.spacing.1)
    (h2 : 0 < g.spacing.2.1) (h3 : 0 < g.spacing.2.2) :
    g.idxOf (g.phys v) = v := by
  unfold Geom.idxOf Geom.phys
  have e : ∀ (o s : ℚ) (n : ℤ), 0 < s → (o + s * n - o) / s = (n : ℚ) := by
    intro o s n hs
    field_simp
  simp only [e _ _ _ h1, e _ _ _ h2, e _ _ _ h3, rndHalfUp_intCast]

/-- Squared physical (mm) distance between two voxels of a geometry. -/
def Geom.sqDist (g : Geom) (u v : Idx) : ℚ :=
  (g.spacing.1 * (u.1 - v.1))^2 + (g.spacing.2.1 * (u.2.1 - v.2.1))^2 +
    (g.spacing.2.2 * (u.2.2 - v.2.2))^2

/-! ## Morphology: structuring elements, dilation, erosion, closing -/

/-- Axis-aligned integer box `[a, b]` as a finset of triples. -/
def boxIcc (a b : Idx) : Finset Idx :=
  ((Finset.Icc a.1 b.1 ×ˢ Finset.Icc a.2.1 b.2.1 ×ˢ Finset.Icc a.2.2 b.2.2).image
    (fun p => (p.1, p.2.1, p.2.2)))

lemma mem_boxIcc {a b v : Idx} :
    v ∈ boxIcc a b ↔ (a.1 ≤ v.1 ∧ v.1 ≤ b.1) ∧ (a.2.1 ≤ v.2.1 ∧ v.2.1 ≤ b.2.1) ∧
      (a.2.2 ≤ v.2.2 ∧ v.2.2 ≤ b.2.2) := by
  obtain ⟨x, y, z⟩ := v
  simp only [boxIcc, Finset.mem_image, Finset.mem_product, Finset.mem_Icc, Prod.exists,
    Prod.mk.injEq]
  constructor
  · rintro ⟨p, q, r, ⟨hp, hq, hr⟩, h1, h2, h3⟩
    subst h1; subst h2; subst h3; exact ⟨hp, hq, hr⟩
  · rintro ⟨hx, hy, hz⟩
    exact ⟨x, y, z, ⟨hx, hy, hz⟩, rfl, rfl, rfl⟩

/-- One axis term of the ellipsoid inclusion test `(d/r)² `, with the degenerate
radius `0` admitting only offset `0` (modelled by a value `> 1`). -/
def ballTerm (d : ℤ) (r : ℕ) : ℚ :=
  if r = 0 then (if d = 0 then 0 else 2) else (d : ℚ)^2 / (r : ℚ)^2

/-- The flat ellipsoid ("ball") structuring element of per-axis voxel radii
`(rx, ry, rz)`, as used by ITK `BinaryDilate` / morphological closing. -/
def ballSE (r : ℕ × ℕ × ℕ) : Finset Idx :=
  (boxIcc (-(r.1 : ℤ), -(r.2.1 : ℤ), -(r.2.2 : ℤ)) ((r.1 : ℤ), (r.2.1 : ℤ), (r.2.2 : ℤ))).filter
    (fun d => ballTerm d.1 r.1 + ballTerm d.2.1 r.2.1 + ballTerm d.2.2 r.2.2 ≤ 1)

lemma zero_mem_ballSE (r : ℕ × ℕ × ℕ) : ((0 : ℤ), (0 : ℤ), (0 : ℤ)) ∈ ballSE r := by
  unfold ballSE
  rw [Finset.mem_filter]
  refine ⟨mem_boxIcc.2 ⟨⟨by simp, by simp⟩, ⟨by simp, by simp⟩, by simp, by simp⟩, ?_⟩
  unfold ballTerm
  rcases r with ⟨a, b, c⟩
  by_cases ha : a = 0 <;> by_cases hb : b = 0 <;> by_cases hc : c = 0 <;>
    simp [ha, hb, hc]

/-- Minkowski dilation of a mask by a structuring element. -/
def dilateSE (X S : Finset Idx) : Finset Idx :=
  X.biUnion (fun x => S.image (fun s => x + s))

lemma mem_dilateSE {X S : Finset Idx} {v : Idx} :
    v ∈ dilateSE X S ↔ ∃ x ∈ X, ∃ s ∈ S, x + s = v := by
  unfold dilateSE
  rw [Finset.mem_biUnion]
  constructor
  · rintro ⟨x, hx, hv⟩
    rw [Finset.mem_image] at hv
    obtain ⟨s, hs, he⟩ := hv
    exact ⟨x, hx, s, hs, he⟩
  · rintro ⟨x, hx, s, hs, he⟩
    exact ⟨x, hx, Finset.mem_image.2 ⟨s, hs, he⟩⟩

lemma subset_dilateSE {X S : Finset Idx} (h0 : ((0:ℤ),(0:ℤ),(0:ℤ)) ∈ S) :
    X ⊆ dilateSE X S := by
  intro v hv
  exact mem_dilateSE.2 ⟨v, hv, _, h0, by simp⟩

/-- Minkowski erosion of a mask by a structuring element. -/
def erodeSE (X S : Finset Idx) : Finset Idx :=
  (dilateSE X (S.image (fun s => -s))).filter (fun y => ∀ s ∈ S, y + s ∈ X)

/-- Binary morphological closing (`safeBorder` variant: computed as on the
unbounded grid; the caller intersects with the image domain). -/
def closingSE (X S : Finset Idx) : Finset Idx := erodeSE (dilateSE X S) S

/-- Closing is extensive. -/
lemma subset_closingSE {X S : Finset Idx} (h0 : ((0:ℤ),(0:ℤ),(0:ℤ)) ∈ S) :
    X ⊆ closingSE X S := by
  intro v hv
  unfold closingSE erodeSE
  rw [Finset.mem_filter]
  constructor
  · exact mem_dilateSE.2 ⟨v, subset_dilateSE h0 hv, _, Finset.mem_image_of_mem _ h0, by simp⟩
  · intro s hs
    exact mem_dilateSE.2 ⟨v, hv, s, hs, rfl⟩

/-! ## Connectivity: breadth-first saturation and connected components -/

/-- Face (6-)adjacency of voxels — the ITK default connectivity for
`ConnectedComponent` and `ConnectedThreshold`. -/
def adj6 (u v : Idx) : Bool :=
  decide (|u.1 - v.1| + |u.2.1 - v.2.1| + |u.2.2 - v.2.2| = 1)

lemma adj6_comm (u v : Idx) : adj6 u v = adj6 v u := by
  unfold adj6
  rw [decide_eq_decide, abs_sub_comm u.1 v.1, abs_sub_comm u.2.1 v.2.1,
    abs_sub_comm u.2.2 v.2.2]

/-- One breadth-first step: add every voxel of `X` adjacent to the current set. -/
def growStep (adj : Idx → Idx → Bool) (X cur : Finset Idx) : Finset Idx :=
  cur ∪ X.filter (fun v => ∃ u ∈ cur, adj u v = true)

/-- Iterated breadth-first expansion, `n` rounds. -/
def growIter (adj : Idx → Idx → Bool) (X : Finset Idx) : ℕ → Finset Idx → Finset Idx
  | 0, cur => cur
  | n + 1, cur => growIter adj X n (growStep adj X cur)

/-- Voxels of `X` reachable from `seeds ∩ X` by an `adj`-chain inside `X`
(`X.card` expansion rounds always saturate). -/
def reachSet (adj : Idx → Idx → Bool) (X seeds : Finset Idx) : Finset Idx :=
  growIter adj X X.card (seeds ∩ X)

/-- An `adj`-step between two voxels of `X`. -/
def StepRel (adj : Idx → Idx → Bool) (X : Finset Idx) (u v : Idx) : Prop :=
  u ∈ X ∧ v ∈ X ∧ adj u v = true

lemma subset_growStep {adj : Idx → Idx → Bool} {X cur : Finset Idx} :
    cur ⊆ growStep adj X cur :=
  Finset.subset_union_left

lemma growStep_subset {adj : Idx → Idx → Bool} {X cur : Finset Idx} (h : cur ⊆ X) :
    growStep adj X cur ⊆ X :=
  Finset.union_subset h (Finset.filter_subset _ _)

lemma subset_growIter {adj : Idx → Idx → Bool} {X : Finset Idx} :
    ∀ (n : ℕ) (cur : Finset Idx), cur ⊆ growIter adj X n cur := by
  intro n
  induction n with
  | zero => intro cur; exact Finset.Subset.refl _
  | succ n ih =>
    intro cur
    exact subset_growStep.trans (ih (growStep adj X cur))

lemma growIter_subset {adj : Idx → Idx → Bool} {X : Finset Idx} :
    ∀ (n : ℕ) (cur : Finset Idx), cur ⊆ X → growIter adj X n cur ⊆ X := by
  intro n
  induction n with
  | zero => intro cur h; exact h
  | succ n ih => intro cur h; exact ih _ (growStep_subset h)

lemma growIter_sound {adj : Idx → Idx → Bool} {X : Finset Idx} :
    ∀ (n : ℕ) (cur : Finset Idx), cur ⊆ X → ∀ v ∈ growIter adj X n cur,
      ∃ u ∈ cur, Relation.ReflTransGen (StepRel adj X) u v := by
  intro n
  induction n with
  | zero => intro cur _ v hv; exact ⟨v, hv, Relation.ReflTransGen.refl⟩
  | succ n ih =>
    intro cur hcur v hv
    obtain ⟨u, hu, hchain⟩ := ih (growStep adj X cur) (growStep_subset hcur) v hv
    rcases Finset.mem_union.1 hu with h | h
    · exact ⟨u, h, hchain⟩
    · rw [Finset.mem_filter] at h
      obtain ⟨huX, w, hw, hadj⟩ := h
      exact ⟨w, hw, Relation.ReflTransGen.head ⟨hcur hw, huX, hadj⟩ hchain⟩

lemma growIter_fix {adj : Idx → Idx → Bool} {X : Finset Idx} :
    ∀ (n : ℕ) (cur : Finset Idx), growStep adj X cur = cur → growIter adj X n cur = cur := by
  intro n
  induction n with
  | zero => intro cur _; rfl
  | succ n ih =>
    intro cur h
    show growIter adj X n (growStep adj X cur) = cur
    rw [h]
    exact ih cur h

lemma growStep_self {adj : Idx → Idx → Bool} {X : Finset Idx} : growStep adj X X = X := by
  unfold growStep
  rw [Finset.union_eq_left]
  exact Finset.filter_subset _ _

/-- After enough rounds (`X.card` suffices given the cardinality slack),
breadth-first expansion reaches a fixed point. -/
lemma growIter_saturates {adj : Idx → Idx → Bool} {X : Finset Idx} :
    ∀ (n : ℕ) (cur : Finset Idx), cur ⊆ X → X.card ≤ cur.card + n →
      growStep adj X (growIter adj X n cur) = growIter adj X n cur := by
  intro n
  induction n with
  | zero =>
    intro cur hsub hcard
    have : cur = X := Finset.eq_of_subset_of_card_le hsub (by omega)
    subst this
    exact growStep_self
  | succ n ih =>
    intro cur hsub hcard
    by_cases hfix : growStep adj X cur = cur
    · have h1 : growIter adj X (n + 1) cur = cur := growIter_fix _ _ hfix
      rw [h1, hfix]
    · have hlt : cur.card < (growStep adj X cur).card :=
        Finset.card_lt_card (lt_of_le_of_ne subset_growStep (Ne.symm hfix))
      exact ih (growStep adj X cur) (growStep_subset hsub) (by omega)

lemma growStep_closed {adj : Idx → Idx → Bool} {X F : Finset Idx}
    (hfix : growStep adj X F = F) {u v : Idx} (hu : u ∈ F) (hstep : StepRel adj X u v) :
    v ∈ F := by
  rw [← hfix]
  exact Finset.mem_union.2 (Or.inr (Finset.mem_filter.2 ⟨hstep.2.1, u, hu, hstep.2.2⟩))

lemma growIter_complete {adj : Idx → Idx → Bool} {X cur : Finset Idx} (hcur : cur ⊆ X)
    {u v : Idx} (hu : u ∈ cur) (h : Relation.ReflTransGen (StepRel adj X) u v) :
    v ∈ growIter adj X X.card cur := by
  have hfix : growStep adj X (growIter adj X X.card cur) = growIter adj X X.card cur :=
    growIter_saturates _ _ hcur (by omega)
  induction h with
  | refl => exact subset_growIter _ _ hu
  | tail _ hstep ihv => exact growStep_closed hfix ihv hstep

lemma mem_reachSet {adj : Idx → Idx → Bool} {X seeds : Finset Idx} {v : Idx} :
    v ∈ reachSet adj X seeds ↔
      ∃ u ∈ seeds ∩ X, Relation.ReflTransGen (StepRel adj X) u v := by
  constructor
  · exact fun h => growIter_sound _ _ Finset.inter_subset_right v h
  · rintro ⟨u, hu, h⟩
    exact growIter_complete Finset.inter_subset_right hu h

/-- The connected component of `v` inside mask `X` (empty when `v ∉ X`). -/
def componentOf (adj : Idx → Idx → Bool) (X : Finset Idx) (v : Idx) : Finset Idx :=
  reachSet adj X {v}

lemma mem_componentOf {adj : Idx → Idx → Bool} {X : Finset Idx} {v w : Idx} :
    w ∈ componentOf adj X v ↔ v ∈ X ∧ Relation.ReflTransGen (StepRel adj X) v w := by
  unfold componentOf
  rw [mem_reachSet]
  constructor
  · rintro ⟨u, hu, h⟩
    rw [Finset.mem_inter, Finset.mem_singleton] at hu
    obtain ⟨rfl, huX⟩ := hu
    exact ⟨huX, h⟩
  · rintro ⟨hvX, h⟩
    exact ⟨v, Finset.mem_inter.2 ⟨Finset.mem_singleton_self v, hvX⟩, h⟩

lemma componentOf_subset {adj : Idx → Idx → Bool} {X : Finset Idx} {v : Idx} :
    componentOf adj X v ⊆ X :=
  growIter_subset _ _ Finset.inter_subset_right

lemma mem_componentOf_self {adj : Idx → Idx → Bool} {X : Finset Idx} {v : Idx}
    (h : v ∈ X) : v ∈ componentOf adj X v :=
  mem_componentOf.2 ⟨h, Relation.ReflTransGen.refl⟩

lemma stepRel_comm {adj : Idx → Idx → Bool} (hsym : ∀ a b, adj a b = adj b a)
    {X : Finset Idx} {u v : Idx} (h : StepRel adj X u v) : StepRel adj X v u :=
  ⟨h.2.1, h.1, (hsym v u).trans h.2.2⟩

lemma rtg_stepRel_symm {adj : Idx → Idx → Bool} (hsym : ∀ a b, adj a b = adj b a)
    {X : Finset Idx} {u v : Idx} (h : Relation.ReflTransGen (StepRel adj X) u v) :
    Relation.ReflTransGen (StepRel adj X) v u := by
  induction h with
  | refl => exact Relation.ReflTransGen.refl
  | tail _ hstep ih =>
    exact Relation.ReflTransGen.head (stepRel_comm hsym hstep) ih

lemma rtg_stepRel_target_mem {adj : Idx → Idx → Bool} {X : Finset Idx} {u v : Idx}
    (h : Relation.ReflTransGen (StepRel adj X) u v) (hu : u ∈ X) : v ∈ X := by
  induction h with
  | refl => exact hu
  | tail _ hstep _ => exact hstep.2.1

/-- Connected components are equivalence classes: any member generates the
same component. -/
lemma componentOf_eq_of_mem {adj : Idx → Idx → Bool} (hsym : ∀ a b, adj a b = adj b a)
    {X : Finset Idx} {v w : Idx} (h : w ∈ componentOf adj X v) :
    componentOf adj X w = componentOf adj X v := by
  obtain ⟨hvX, hvw⟩ := mem_componentOf.1 h
  have hwX : w ∈ X := rtg_stepRel_target_mem hvw hvX
  ext u
  rw [mem_componentOf, mem_componentOf]
  constructor
  · rintro ⟨_, hwu⟩
    exact ⟨hvX, hvw.trans hwu⟩
  · rintro ⟨_, hvu⟩
    exact ⟨hwX, (rtg_stepRel_symm hsym hvw).trans hvu⟩

/-! ## Tuning knobs (tubercle_recovery.py, lines 14-47) -/

def UPPER_HU : ℚ := 1200
def NBHD_RADIUS_MM : ℚ := 12
def NBHD_BONE_HU : ℚ := 600
def NBHD_BONE_FRAC_LEFT_CUTOFF : ℚ := 5/100
def NBHD_BONE_FRAC_RIGHT_CUTOFF : ℚ := 5/1000
def POSTERIOR_Y_IDX_MIN_FRAC : ℚ := 55/100
def MIDLINE_X_TOL_MM : ℚ := 50
def PCTL_ROBUST : ℚ := 40
def LOWER_PCTL_FLOOR_R : ℚ := 200
def R_RIB_MM_R : ℚ := 10
def R_TIP_MM_R : ℚ := 14
def LOWER_HU_RIGHT_MIN : ℚ := 400
def SPINE_HU : ℚ := 480
def SPINE_MID_TOL_MM : ℚ := 20
def SPINE_Z_EXT_MM : ℚ := 60
def SPINE_CLEAR_MM : ℚ := 8
def FINAL_CLOSING : ℕ × ℕ × ℕ := (8, 0, 8)

/-! ## Consumed SimpleITK services -/

/-- Embedding of `resample_like` with nearest-neighbour interpolation, identity transform
and default pixel value 0: each index of the fixed geometry reads the moving
image at the nearest index of its physical point, or 0 outside. -/
def resample_like (movG fixG : Geom) (mov : Finset Idx) : Finset Idx :=
  fixG.box.filter (fun i =>
    movG.idxOf (fixG.phys i) ∈ movG.box ∧ movG.idxOf (fixG.phys i) ∈ mov)

lemma mem_resample_like {movG fixG : Geom} {mov : Finset Idx} {i : Idx} :
    i ∈ resample_like movG fixG mov ↔
      i ∈ fixG.box ∧ movG.idxOf (fixG.phys i) ∈ movG.box ∧
        movG.idxOf (fixG.phys i) ∈ mov := by
  unfold resample_like
  rw [Finset.mem_filter]

/-- Signed-Maurer threshold `d ≤ r` (distances in mm, negative inside `X`):
holds iff some voxel of `X` lies within physical distance `r` of `v`. -/
def distLE (g : Geom) (X : Finset Idx) (v : Idx) (r : ℚ) : Prop :=
  ∃ m ∈ X, g.sqDist v m ≤ r^2

instance (g : Geom) (X : Finset Idx) (v : Idx) (r : ℚ) : Decidable (distLE g X v r) :=
  inferInstanceAs (Decidable (∃ m ∈ X, g.sqDist v m ≤ r^2))

/-- Signed-Maurer threshold `d ≥ r` (for `r > 0`): every voxel of `X` lies at
physical distance at least `r` from `v`. -/
def distGE (g : Geom) (X : Finset Idx) (v : Idx) (r : ℚ) : Prop :=
  ∀ m ∈ X, r^2 ≤ g.sqDist v m

instance (g : Geom) (X : Finset Idx) (v : Idx) (r : ℚ) : Decidable (distGE g X v r) :=
  inferInstanceAs (Decidable (∀ m ∈ X, r^2 ≤ g.sqDist v m))

/-! ## Skeleton endpoints (lines 73-80) -/

/-- The 27 offsets of a 3×3×3 window. -/
def offsets27 : Finset Idx := boxIcc (-1, -1, -1) (1, 1, 1)

/-- Embedding of `endpoints_from_skeleton` (index part): skeleton voxels whose 3×3×3
window — the `ones((3,3,3))` convolution with zero padding — contains exactly
2 skeleton voxels, i.e. the voxel itself plus exactly one neighbour. -/
def endpoints_from_skeleton (sk : Finset Idx) : Finset Idx :=
  sk.filter (fun v => ((offsets27.image (fun d => v + d)) ∩ sk).card = 2)

/-! ## Endpoint classifier (lines 107-140) -/

/-- Physical x of the volume midline, `origin[0] + sp[0]*(size[0]/2)`. -/
def midXPhys (g : Geom) : ℚ := g.origin.1 + g.spacing.1 * ((g.size.1 : ℚ) / 2)

/-- The anatomical position check of the classifier (lines 117-124):
posterior y-index fraction and physical midline x tolerance. -/
def anatomical_gate (g : Geom) (ep : PhysPt) (y_frac_min x_tol_mm : ℚ) : Bool :=
  let idx := g.idxOf ep
  decide ((y_frac_min * (g.size.2.1 : ℚ) ≤ (idx.2.1 : ℚ)) ∧ |ep.1 - midXPhys g| ≤ x_tol_mm)

/-- Embedding of `endpoint_is_posterior_missing_tubercle`: the fraction of dense non-rib
bone in a clipped box neighbourhood of the endpoint, or the sentinel `1.0`
when the anatomical gate fails.  (numpy's `mean` of an empty region is NaN;
here `0/0 = 0` — endpoints always come from in-grid skeleton voxels, whose
clipped neighbourhood is nonempty.) -/
def endpoint_is_posterior_missing_tubercle (g : Geom) (ct : Idx → ℚ) (ribs : Finset Idx)
    (ep : PhysPt) (nbhd_mm bone_hu y_frac_min x_tol_mm : ℚ) : ℚ :=
  if anatomical_gate g ep y_frac_min x_tol_mm then
    let idx := g.idxOf ep
    let rx := max 1 (pyRound (nbhd_mm / g.spacing.1))
    let ry := max 1 (pyRound (nbhd_mm / g.spacing.2.1))
    let rz := max 1 (pyRound (nbhd_mm / g.spacing.2.2))
    let lo : Idx := (max 0 (idx.1 - rx), max 0 (idx.2.1 - ry), max 0 (idx.2.2 - rz))
    let hi : Idx := (min ((g.size.1 : ℤ) - 1) (idx.1 + rx),
      min ((g.size.2.1 : ℤ) - 1) (idx.2.1 + ry), min ((g.size.2.2 : ℤ) - 1) (idx.2.2 + rz))
    let roi := boxIcc lo hi
    ((roi.filter (fun v => bone_hu ≤ ct v ∧ v ∉ ribs)).card : ℚ) / (roi.card : ℚ)
  else 1

/-! ## Spine mask builder (lines 89-105) -/

/-- Physical x-coordinate of a component's centroid (ITK `GetCentroid`). -/
def centroidX (g : Geom) (C : Finset Idx) : ℚ :=
  (∑ v ∈ C, (g.origin.1 + g.spacing.1 * (v.1 : ℚ))) / (C.card : ℚ)

/-- Physical z-extent (mm) of a component's bounding box, `sz * sp[2]`. -/
def zExtent (g : Geom) (C : Finset Idx) : ℚ :=
  if h : C.Nonempty then
    ((((C.image (fun v => v.2.2)).max' (h.image _) -
        (C.image (fun v => v.2.2)).min' (h.image _) + 1 : ℤ) : ℚ)) * g.spacing.2.2
  else 0

/-- The set of connected components of a mask (ITK `ConnectedComponent`,
default face connectivity). -/
def compsOf (X : Finset Idx) : Finset (Finset Idx) := X.image (componentOf adj6 X)

/-- Embedding of `build_spine_mask`: union of dense components whose centroid is near the
midline and whose bounding box spans a large z extent, dilated by one voxel
(empty results short-circuit as in the source). -/
def build_spine_mask (g : Geom) (ct : Idx → ℚ) : Finset Idx :=
  let high := g.box.filter (fun v => SPINE_HU ≤ ct v)
  if high = ∅ then ∅
  else
    let out := ((compsOf high).filter (fun C =>
      |centroidX g C - midXPhys g| ≤ SPINE_MID_TOL_MM ∧ SPINE_Z_EXT_MM ≤ zExtent g C)).sup id
    if out = ∅ then out else dilateSE out (ballSE (1, 1, 1)) ∩ g.box

/-! ## Corridor, region growth, attachment filter (lines 142-187) -/

/-- The near-structure band: voxels whose signed Maurer distance to the rib
mask is at most `r_rib_mm`. -/
def near_structure_band (g : Geom) (ribs : Finset Idx) (r_rib_mm : ℚ) : Finset Idx :=
  g.box.filter (fun v => distLE g ribs v r_rib_mm)

/-- The endpoint sphere: a single seed voxel at the endpoint's index (when in
grid) dilated by the per-axis voxel radius `round(r_tip_mm / spacing)`. -/
def tip_sphere (g : Geom) (ep : PhysPt) (r_tip_mm : ℚ) : Finset Idx :=
  let center := g.idxOf ep
  let sphere0 : Finset Idx := if center ∈ g.box then {center} else ∅
  let rad : ℕ × ℕ × ℕ :=
    ((max 1 (pyRound (r_tip_mm / g.spacing.1))).toNat,
     (max 1 (pyRound (r_tip_mm / g.spacing.2.1))).toNat,
     (max 1 (pyRound (r_tip_mm / g.spacing.2.2))).toNat)
  dilateSE sphere0 (ballSE rad) ∩ g.box

/-- The spine-clearance zone: voxels whose distance to the spine mask is at
least `SPINE_CLEAR_MM`. -/
def spine_clearance (g : Geom) (spine : Finset Idx) : Finset Idx :=
  g.box.filter (fun v => distGE g spine v SPINE_CLEAR_MM)

/-- Embedding of `corridor_for_tip`: near-rib band ∩ endpoint sphere, further intersected
with the spine clearance zone when a spine mask is present. -/
def corridor_for_tip (g : Geom) (ribs spine : Finset Idx) (ep : PhysPt)
    (r_rib_mm r_tip_mm : ℚ) : Finset Idx :=
  let cor := near_structure_band g ribs r_rib_mm ∩ tip_sphere g ep r_tip_mm
  if spine.Nonempty then cor ∩ spine_clearance g spine else cor

/-- Embedding of `sitk.Mask(ct, corridor, outsideValue=-2000)`: CT intensities with all
voxels outside the corridor forced to −2000. -/
def masked_ct (ct : Idx → ℚ) (corridor : Finset Idx) (v : Idx) : ℚ :=
  if v ∈ corridor then ct v else -2000

/-- Embedding of `region_grow_local`: `ConnectedThreshold` within `[lo, hi]` on the CT
masked to the corridor. -/
def region_grow_local (g : Geom) (ct : Idx → ℚ) (seeds : List PhysPt) (lo hi : ℚ)
    (corridor : Finset Idx) : Finset Idx :=
  if seeds = [] then ∅
  else
    let inb := g.box.filter (fun v => lo ≤ masked_ct ct corridor v ∧ masked_ct ct corridor v ≤ hi)
    reachSet adj6 inb (seeds.map g.idxOf).toFinset

/-- Embedding of `keep_growth_touching_rib`: keep the connected components of the grown
mask that meet the one-voxel dilation of the rib. -/
def keep_growth_touching_rib (grow rib : Finset Idx) : Finset Idx :=
  if grow = ∅ then grow
  else
    let rib_d := dilateSE rib (ballSE (1, 1, 1))
    ((compsOf grow).filter (fun C => (C ∩ rib_d).Nonempty)).sup id

/-! ## Intensity percentiles (lines 82-87) -/

/-- Insert into an ascending-sorted list. -/
def insertAsc (x : ℚ) : List ℚ → List ℚ
  | [] => [x]
  | y :: t => if x ≤ y then x :: y :: t else y :: insertAsc x t

/-- Insertion sort, ascending. -/
def sortAsc : List ℚ → List ℚ
  | [] => []
  | x :: t => insertAsc x (sortAsc t)

/-- Embedding of `np.percentile` with the default linear interpolation, for a nonempty
sample list. -/
def np_percentile (p : ℚ) (l : List ℚ) : ℚ :=
  let s := sortAsc l
  let n := s.length
  let pos := p * ((n : ℚ) - 1) / 100
  let i := (⌊pos⌋).toNat
  let frac := pos - ⌊pos⌋
  if i + 1 < n then s.getD i 0 + frac * (s.getD (i + 1) 0 - s.getD i 0)
  else s.getD (n - 1) 0

/-- CT intensities inside a mask, in `argwhere` (z, y, x) order. -/
def huInMask (g : Geom) (ct : Idx → ℚ) (mask : Finset Idx) : List ℚ :=
  (g.boxList.filter (fun v => decide (v ∈ mask))).map ct

/-- Embedding of `stats_percentiles_in_mask`: requested percentiles of the CT intensities
inside a mask, or `300.0` for each when the mask is empty. -/
def stats_percentiles_in_mask (g : Geom) (ct : Idx → ℚ) (mask : Finset Idx)
    (pcts : List ℚ) : List ℚ :=
  let hu := huInMask g ct mask
  if hu = [] then pcts.map (fun _ => 300) else pcts.map (fun p => np_percentile p hu)

/-! ## Side selection (lines 195-209) and the orchestrator (lines 190-262) -/

/-- The filename tag selecting the right-side parameters. -/
def rightTag : List Char := "rib_right_1".toList

/-- Side-specific (cutoff, HU floor) selection, keyed solely on whether the
rib filename contains the substring "rib_right_1". -/
def sideSelect (rib_filename : List Char) : ℚ × ℚ :=
  if rightTag <:+: rib_filename then
    (NBHD_BONE_FRAC_RIGHT_CUTOFF, LOWER_HU_RIGHT_MIN)
  else
    (NBHD_BONE_FRAC_LEFT_CUTOFF, LOWER_PCTL_FLOOR_R)

/-- Inputs of one `repair_first_rib` call.  `thinning` is the external
`BinaryThinning` service (consumed, not reimplemented); `failAt` records for
each endpoint physical point whether the toolkit raises an exception during
that endpoint's corridor/growth calls in the loop body (lines 247-253). -/
structure Env where
  ctGeom : Geom
  ct : Idx → ℚ
  ribGeom : Geom
  ribRaw : Finset Idx
  filename : List Char
  thinning : Finset Idx → Finset Idx
  failAt : PhysPt → Bool

/-- The rib mask resampled into CT space (line 192). -/
def Env.rib (e : Env) : Finset Idx := resample_like e.ribGeom e.ctGeom e.ribRaw

/-- The cached spine mask (line 193). -/
def Env.spine (e : Env) : Finset Idx := build_spine_mask e.ctGeom e.ct

/-- The skeleton of the resampled rib (line 212). -/
def Env.skel (e : Env) : Finset Idx := e.thinning e.rib

/-- Skeleton endpoints as physical points, in `argwhere` order (line 213). -/
def Env.endpointsList (e : Env) : List PhysPt :=
  (e.ctGeom.boxList.filter (fun v => decide (v ∈ endpoints_from_skeleton e.skel))).map
    e.ctGeom.phys

/-- The active contamination cutoff of the rib's side. -/
def Env.activeCutoff (e : Env) : ℚ := (sideSelect e.filename).1

/-- The active HU floor of the rib's side. -/
def Env.targetHuFloor (e : Env) : ℚ := (sideSelect e.filename).2

/-- The classifier applied with the script's parameters (lines 218-221). -/
def Env.classify (e : Env) (ep : PhysPt) : ℚ :=
  endpoint_is_posterior_missing_tubercle e.ctGeom e.ct e.rib ep NBHD_RADIUS_MM
    NBHD_BONE_HU POSTERIOR_Y_IDX_MIN_FRAC MIDLINE_X_TOL_MM

/-- The accepted growth candidates (lines 215-225): endpoints whose
contamination fraction passes the side's hard cutoff. -/
def Env.growthCandidates (e : Env) : List (PhysPt × ℚ) :=
  e.endpointsList.filterMap (fun ep =>
    let frac := e.classify ep
    if frac ≤ e.activeCutoff then some (ep, frac) else none)

/-- The 40th-percentile CT intensity inside the rib (line 240). -/
def Env.pctlVal (e : Env) : ℚ :=
  (stats_percentiles_in_mask e.ctGeom e.ct e.rib [PCTL_ROBUST, 0]).headD 300

/-- The lower growth bound (line 243). -/
def Env.lowerHu (e : Env) : ℚ := max e.pctlVal e.targetHuFloor

/-- The corridor built for one accepted endpoint (line 249). -/
def Env.corridorFor (e : Env) (ep : PhysPt) : Finset Idx :=
  corridor_for_tip e.ctGeom e.rib e.spine ep R_RIB_MM_R R_TIP_MM_R

/-- One endpoint's raw region growth (line 250). -/
def Env.growthRaw (e : Env) (ep : PhysPt) : Finset Idx :=
  region_grow_local e.ctGeom e.ct [ep] e.lowerHu UPPER_HU (e.corridorFor ep)

/-- One endpoint's growth after the attachment filter (line 251). -/
def Env.growthFor (e : Env) (ep : PhysPt) : Finset Idx :=
  keep_growth_touching_rib (e.growthRaw ep) e.rib

/-- A written output image: geometry plus foreground voxels. -/
structure OutImg where
  geom : Geom
  mask : Finset Idx
  deriving DecidableEq

/-- One candidate's pass through the growth loop body (lines 247-253);
raises when the toolkit fails for this endpoint. -/
def growOne (e : Env) (c : PhysPt × ℚ) : Except String (Finset Idx) :=
  if e.failAt c.1 then Except.error "growth failure" else Except.ok (e.growthFor c.1)

/-- Embedding of `repair_first_rib` (lines 190-262): with no candidate, write the original
raw rib unchanged; otherwise union the candidates' growths (a raised
exception aborts the loop and propagates), close, clip to the grid, resample
back into the raw rib geometry, and write. -/
def repair_first_rib (e : Env) : Except String OutImg :=
  let cands := e.growthCandidates
  if cands.isEmpty then Except.ok ⟨e.ribGeom, e.ribRaw⟩
  else
    (cands.mapM (growOne e)).map (fun gs =>
      let growUnion := gs.foldl (fun a b => a ∪ b) ∅
      let pre := e.rib ∪ growUnion
      let refined := closingSE pre (ballSE FINAL_CLOSING) ∩ e.ctGeom.box
      ⟨e.ribGeom, resample_like e.ctGeom e.ribGeom refined⟩)

/-- The per-rib driver loop (lines 328-335): ribs are processed
independently; an exception is caught per rib and the batch continues. -/
def processAllRibs (envs : List Env) : List (Except String OutImg) :=
  envs.map repair_first_rib

/-! ## Concrete environments used by witnesses and counterexamples -/

/-- A 2×3×1 grid with 8 mm spacing at the origin. -/
def geomB : Geom := ⟨(2, 3, 1), (0, 0, 0), (8, 8, 8)⟩

/-- A toy CT: 300 HU along the row y = 2, 0 elsewhere. -/
def ctB : Idx → ℚ := fun v => if v.2.1 = 2 then 300 else 0

/-- Growth-path environment: a 2-voxel rib rod along y = 2, matching raw and
CT geometries, identity thinning (the rod is already 1 voxel thin), no
toolkit failures.  Both rod voxels are skeleton endpoints, pass the
anatomical gate (y-index 2 ≥ 0.55·3, |x − 8| ≤ 50) and have dense-bone
fraction 0 ≤ 0.05. -/
def envB : Env where
  ctGeom := geomB
  ct := ctB
  ribGeom := geomB
  ribRaw := {((0 : ℤ), (2 : ℤ), (0 : ℤ)), ((1 : ℤ), (2 : ℤ), (0 : ℤ))}
  filename := "rib_left_1.nii.gz".toList
  thinning := fun X => X
  failAt := fun _ => false

/-- Skip-path environment: a rib rod along the anterior row y = 0; both of
its skeleton endpoints fail the anatomical gate, so no candidate is
accepted. -/
def envSkip : Env where
  ctGeom := geomB
  ct := ctB
  ribGeom := geomB
  ribRaw := {((0 : ℤ), (0 : ℤ), (0 : ℤ)), ((1 : ℤ), (0 : ℤ), (0 : ℤ))}
  filename := "rib_left_1.nii.gz".toList
  thinning := fun X => X
  failAt := fun _ => false

/-- Like `envB` but with the toolkit raising on the first endpoint's growth. -/
def envB2 : Env :=
  { envB with failAt := fun p => decide (p = ((0 : ℚ), (16 : ℚ), (0 : ℚ))) }

/-- A 3×3×1 grid with 8 mm spacing: the raw-rib geometry of `envC1`. -/
def geomC1 : Geom := ⟨(3, 3, 1), (0, 0, 0), (8, 8, 8)⟩

/-- Geometry-mismatch environment: the raw rib grid (3×3×1) is wider than
the CT grid (2×3×1), so the raw rib voxel (2,2,0) has no CT counterpart and
is lost by the final resampling. -/
def envC1 : Env where
  ctGeom := geomB
  ct := ctB
  ribGeom := geomC1
  ribRaw := {((0 : ℤ), (2 : ℤ), (0 : ℤ)), ((1 : ℤ), (2 : ℤ), (0 : ℤ)),
    ((2 : ℤ), (2 : ℤ), (0 : ℤ))}
  filename := "rib_left_1.nii.gz".toList
  thinning := fun X => X
  failAt := fun _ => false

/-- A 2×7×1 grid with 8 mm spacing. -/
def geomC4 : Geom := ⟨(2, 7, 1), (0, 0, 0), (8, 8, 8)⟩

/-- Classifier-conflation environment: 700 HU everywhere, a one-voxel rib at
y = 1.  The point (0,0,0) fails the anatomical gate; the point (0,48,0)
passes it with a fully contaminated neighbourhood. -/
def envC4 : Env where
  ctGeom := geomC4
  ct := fun _ => 700
  ribGeom := geomC4
  ribRaw := {((0 : ℤ), (1 : ℤ), (0 : ℤ))}
  filename := "rib_left_1.nii.gz".toList
  thinning := fun X => X
  failAt := fun _ => false

/-! ## Path lemmas for the orchestrator -/

lemma mapM_growOne_ok (e : Env) :
    ∀ l : List (PhysPt × ℚ), (∀ c ∈ l, e.failAt c.1 = false) →
      l.mapM (growOne e) = Except.ok (l.map (fun c => e.growthFor c.1)) := by
  intro l
  induction l with
  | nil => intro _; rfl
  | cons c t ih =>
    intro h
    rw [List.mapM_cons, ih (fun d hd => h d (List.mem_cons_of_mem c hd))]
    have hc : growOne e c = Except.ok (e.growthFor c.1) := by
      unfold growOne
      rw [h c (List.mem_cons_self c t)]
      rfl
    rw [hc]
    rfl

lemma mapM_growOne_error (e : Env) :
    ∀ l : List (PhysPt × ℚ), ∀ c ∈ l, e.failAt c.1 = true →
      ∃ msg, l.mapM (growOne e) = Except.error msg := by
  intro l
  induction l with
  | nil => intro c hc; exact absurd hc (List.not_mem_nil c)
  | cons d t ih =>
    intro c hc hfail
    rw [List.mapM_cons]
    by_cases hd : e.failAt d.1 = true
    · refine ⟨"growth failure", ?_⟩
      have : growOne e d = Except.error "growth failure" := by
        unfold growOne
        rw [hd]
        rfl
      rw [this]
      rfl
    · rcases List.mem_cons.1 hc with rfl | hct
      · exact absurd hfail hd
      · obtain ⟨msg, hmsg⟩ := ih c hct hfail
        have hdok : growOne e d = Except.ok (e.growthFor d.1) := by
          unfold growOne
          rw [Bool.not_eq_true] at hd
          rw [hd]
          rfl
        refine ⟨msg, ?_⟩
        rw [hdok]
        show (t.mapM (growOne e)).bind _ = _
        rw [hmsg]
        rfl

/-- On the skip path, the original raw image is written unchanged. -/
lemma repair_skip (e : Env) (h : e.growthCandidates = []) :
    repair_first_rib e = Except.ok ⟨e.ribGeom, e.ribRaw⟩ := by
  simp only [repair_first_rib]
  rw [h]
  rfl

/-- On the growth path with no toolkit failure, the output is the closing of
the rib united with the accepted growths, clipped to the CT grid and
resampled back into the raw rib geometry. -/
lemma repair_growth (e : Env) (hne : e.growthCandidates ≠ [])
    (hok : ∀ c ∈ e.growthCandidates, e.failAt c.1 = false) :
    repair_first_rib e = Except.ok
      ⟨e.ribGeom, resample_like e.ctGeom e.ribGeom
        (closingSE (e.rib ∪ ((e.growthCandidates.map (fun c => e.growthFor c.1)).foldl
            (fun a b => a ∪ b) ∅))
          (ballSE FINAL_CLOSING) ∩ e.ctGeom.box)⟩ := by
  simp only [repair_first_rib]
  rw [mapM_growOne_ok e _ hok]
  have hempty : e.growthCandidates.isEmpty = false := by
    cases hcands : e.growthCandidates with
    | nil => exact absurd hcands hne
    | cons c t => rfl
  rw [hempty]
  rfl

/-- On the growth path, a toolkit failure at any accepted endpoint aborts
the whole rib: no output is produced. -/
lemma repair_error (e : Env) (c : PhysPt × ℚ) (hc : c ∈ e.growthCandidates)
    (hfail : e.failAt c.1 = true) :
    ∃ msg, repair_first_rib e = Except.error msg := by
  obtain ⟨msg, hmsg⟩ := mapM_growOne_error e e.growthCandidates c hc hfail
  refine ⟨msg, ?_⟩
  simp only [repair_first_rib]
  have hempty : e.growthCandidates.isEmpty = false := by
    cases hcands : e.growthCandidates with
    | nil => rw [hcands] at hc; exact absurd hc (List.not_mem_nil c)
    | cons d t => rfl
  rw [hempty]
  show (e.growthCandidates.mapM (growOne e)).map _ = _
  rw [hmsg]
  rfl

/-! ## C8: skeleton endpoint detection -/

/-- The 26-neighbourhood of a voxel: its 3×3×3 window without the centre. -/
def nbhd26 (v : Idx) : Finset Idx :=
  (offsets27.erase ((0 : ℤ), (0 : ℤ), (0 : ℤ))).image (fun d => v + d)

lemma mem_nbhd26 {v w : Idx} :
    w ∈ nbhd26 v ↔ (v.1 - 1 ≤ w.1 ∧ w.1 ≤ v.1 + 1) ∧ (v.2.1 - 1 ≤ w.2.1 ∧ w.2.1 ≤ v.2.1 + 1) ∧
      (v.2.2 - 1 ≤ w.2.2 ∧ w.2.2 ≤ v.2.2 + 1) ∧ w ≠ v := by
  obtain ⟨v1, v2, v3⟩ := v
  obtain ⟨w1, w2, w3⟩ := w
  dsimp only
  unfold nbhd26 offsets27
  rw [Finset.mem_image]
  constructor
  · rintro ⟨d, hd, he⟩
    rw [Finset.mem_erase] at hd
    obtain ⟨hne, hbox⟩ := hd
    rw [mem_boxIcc] at hbox
    obtain ⟨d1, d2, d3⟩ := d
    simp only [Prod.mk_add_mk, Prod.mk.injEq] at he
    obtain ⟨e1, e2, e3⟩ := he
    simp only [Prod.mk.injEq, ne_eq] at hne ⊢
    dsimp only at hbox
    refine ⟨⟨by omega, by omega⟩, ⟨by omega, by omega⟩, ⟨by omega, by omega⟩, ?_⟩
    intro hc
    exact hne ⟨by omega, by omega, by omega⟩
  · rintro ⟨⟨h1a, h1b⟩, ⟨h2a, h2b⟩, ⟨h3a, h3b⟩, hne⟩
    simp only [Prod.mk.injEq, ne_eq, not_and] at hne
    refine ⟨(w1 - v1, w2 - v2, w3 - v3), Finset.mem_erase.2 ⟨?_, mem_boxIcc.2 ?_⟩, ?_⟩
    · simp only [Prod.mk.injEq, ne_eq, not_and]
      intro p1 p2 p3
      exact hne (by omega) (by omega) (by omega)
    · dsimp only
      refine ⟨⟨by omega, by omega⟩, ⟨by omega, by omega⟩, by omega, by omega⟩
    · simp only [Prod.mk_add_mk, Prod.mk.injEq]
      refine ⟨by omega, by omega, by omega⟩

lemma not_mem_nbhd26_self (v : Idx) : v ∉ nbhd26 v := by
  rw [mem_nbhd26]
  rintro ⟨-, -, -, h⟩
  exact h rfl

/-- The 3×3×3 window of `v` is `v` together with its 26-neighbourhood. -/
lemma window_eq_insert_nbhd26 (v : Idx) :
    offsets27.image (fun d => v + d) = insert v (nbhd26 v) := by
  have h0 : ((0 : ℤ), (0 : ℤ), (0 : ℤ)) ∈ offsets27 := by
    unfold offsets27
    rw [mem_boxIcc]
    refine ⟨⟨?_, ?_⟩, ⟨?_, ?_⟩, ?_, ?_⟩ <;> norm_num
  calc offsets27.image (fun d => v + d)
      = (insert ((0 : ℤ), (0 : ℤ), (0 : ℤ))
          (offsets27.erase ((0 : ℤ), (0 : ℤ), (0 : ℤ)))).image (fun d => v + d) := by
        rw [Finset.insert_erase h0]
    _ = insert v (nbhd26 v) := by
        rw [Finset.image_insert]
        unfold nbhd26
        congr 1
        simp

/-- A voxel is reported as an endpoint iff it is a skeleton voxel whose
26-neighbourhood holds exactly one other skeleton voxel. -/
lemma mem_endpoints_iff {sk : Finset Idx} {v : Idx} :
    v ∈ endpoints_from_skeleton sk ↔ v ∈ sk ∧ (nbhd26 v ∩ sk).card = 1 := by
  unfold endpoints_from_skeleton
  rw [Finset.mem_filter]
  constructor
  · rintro ⟨hv, hcard⟩
    refine ⟨hv, ?_⟩
    rw [window_eq_insert_nbhd26, Finset.insert_inter_of_mem hv] at hcard
    have hnot : v ∉ nbhd26 v ∩ sk := fun h =>
      not_mem_nbhd26_self v (Finset.mem_inter.1 h).1
    rw [Finset.card_insert_of_not_mem hnot] at hcard
    omega
  · rintro ⟨hv, hcard⟩
    refine ⟨hv, ?_⟩
    rw [window_eq_insert_nbhd26, Finset.insert_inter_of_mem hv]
    have hnot : v ∉ nbhd26 v ∩ sk := fun h =>
      not_mem_nbhd26_self v (Finset.mem_inter.1 h).1
    rw [Finset.card_insert_of_not_mem hnot]
    omega

/-- A straight axis-aligned line skeleton of `n` voxels. -/
def lineX (n : ℕ) : Finset Idx :=
  (Finset.range n).image (fun i : ℕ => ((i : ℤ), (0 : ℤ), (0 : ℤ)))

lemma mem_lineX {n : ℕ} {w : Idx} :
    w ∈ lineX n ↔ 0 ≤ w.1 ∧ w.1 < n ∧ w.2.1 = 0 ∧ w.2.2 = 0 := by
  obtain ⟨w1, w2, w3⟩ := w
  dsimp only
  unfold lineX
  rw [Finset.mem_image]
  constructor
  · rintro ⟨i, hi, he⟩
    rw [Finset.mem_range] at hi
    simp only [Prod.mk.injEq] at he
    obtain ⟨e1, e2, e3⟩ := he
    refine ⟨?_, ?_, ?_, ?_⟩ <;> omega
  · rintro ⟨h0, h1, h2, h3⟩
    refine ⟨w1.toNat, Finset.mem_range.2 (by omega), ?_⟩
    simp only [Prod.mk.injEq]
    refine ⟨by omega, by omega, by omega⟩

lemma inter_case_left {n : ℕ} (hn : 2 ≤ n) :
    nbhd26 ((0 : ℤ), (0 : ℤ), (0 : ℤ)) ∩ lineX n = {((1 : ℤ), (0 : ℤ), (0 : ℤ))} := by
  ext ⟨w1, w2, w3⟩
  simp only [Finset.mem_inter, mem_nbhd26, mem_lineX, Finset.mem_singleton, Prod.mk.injEq,
    ne_eq]
  omega

lemma inter_case_right {n : ℕ} (hn : 2 ≤ n) :
    nbhd26 (((n : ℤ) - 1), (0 : ℤ), (0 : ℤ)) ∩ lineX n =
      {(((n : ℤ) - 2), (0 : ℤ), (0 : ℤ))} := by
  ext ⟨w1, w2, w3⟩
  simp only [Finset.mem_inter, mem_nbhd26, mem_lineX, Finset.mem_singleton, Prod.mk.injEq,
    ne_eq]
  omega

lemma inter_case_mid {n : ℕ} {i : ℤ} (h0 : 0 < i) (h1 : i < (n : ℤ) - 1) :
    nbhd26 (i, (0 : ℤ), (0 : ℤ)) ∩ lineX n =
      {(i - 1, (0 : ℤ), (0 : ℤ)), (i + 1, (0 : ℤ), (0 : ℤ))} := by
  ext ⟨w1, w2, w3⟩
  simp only [Finset.mem_inter, mem_nbhd26, mem_lineX, Finset.mem_insert, Finset.mem_singleton,
    Prod.mk.injEq, ne_eq]
  omega

/-- The endpoints of a straight line of `n ≥ 2` voxels are exactly its two
extremities. -/
lemma line_endpoints {n : ℕ} (hn : 2 ≤ n) :
    endpoints_from_skeleton (lineX n) =
      {((0 : ℤ), (0 : ℤ), (0 : ℤ)), (((n : ℤ) - 1), (0 : ℤ), (0 : ℤ))} := by
  ext ⟨w1, w2, w3⟩
  rw [mem_endpoints_iff, mem_lineX]
  simp only [Finset.mem_insert, Finset.mem_singleton, Prod.mk.injEq]
  constructor
  · rintro ⟨⟨hw0, hwn, rfl, rfl⟩, hcard⟩
    by_cases hL : w1 = 0
    · exact Or.inl ⟨hL, rfl, rfl⟩
    · by_cases hR : w1 = (n : ℤ) - 1
      · exact Or.inr ⟨hR, rfl, rfl⟩
      · exfalso
        rw [inter_case_mid (by omega) (by omega)] at hcard
        have hpair : ({(w1 - 1, (0 : ℤ), (0 : ℤ)), (w1 + 1, (0 : ℤ), (0 : ℤ))} :
            Finset Idx).card = 2 := by
          rw [Finset.card_insert_of_not_mem, Finset.card_singleton]
          rw [Finset.mem_singleton]
          intro h
          rw [Prod.mk.injEq] at h
          obtain ⟨h1, -⟩ := h
          omega
        omega
  · rintro (⟨rfl, rfl, rfl⟩ | ⟨rfl, rfl, rfl⟩)
    · refine ⟨⟨le_refl 0, by omega, rfl, rfl⟩, ?_⟩
      rw [inter_case_left hn]
      exact Finset.card_singleton _
    · refine ⟨⟨by omega, by omega, rfl, rfl⟩, ?_⟩
      rw [inter_case_right hn]
      exact Finset.card_singleton _

/-- C8: the detector reports a voxel as an endpoint iff it is a skeleton
voxel whose 26-neighbourhood contains exactly one other skeleton voxel, and
an unbranched straight-line skeleton of any length ≥ 2 yields exactly 2
endpoints. -/
theorem C8_endpoint_detector :
    (∀ (sk : Finset Idx) (v : Idx),
        v ∈ endpoints_from_skeleton sk ↔ v ∈ sk ∧ (nbhd26 v ∩ sk).card = 1) ∧
    (∀ n : ℕ, 2 ≤ n → (endpoints_from_skeleton (lineX n)).card = 2) := by
  refine ⟨fun sk v => mem_endpoints_iff, fun n hn => ?_⟩
  rw [line_endpoints hn]
  have hne : ((0 : ℤ), (0 : ℤ), (0 : ℤ)) ∉
      ({(((n : ℤ) - 1), (0 : ℤ), (0 : ℤ))} : Finset Idx) := by
    rw [Finset.mem_singleton]
    intro h
    rw [Prod.mk.injEq] at h
    obtain ⟨h1, -⟩ := h
    omega
  rw [Finset.card_insert_of_not_mem hne, Finset.card_singleton]

/-- C8 witness: the 5-voxel line has exactly 2 endpoints. -/
theorem C8_endpoint_detector_witness :
    2 ≤ 5 ∧ (endpoints_from_skeleton (lineX 5)).card = 2 :=
  ⟨by norm_num, C8_endpoint_detector.2 5 (by norm_num)⟩

/-! ## C9: the component attachment filter -/

/-- C9: the filter retains a voxel of the grown mask exactly when its
connected component meets the one-voxel dilation of the original rib mask;
any disconnected grown blob not touching the dilated rib is removed. -/
theorem C9_component_attachment (grow rib : Finset Idx) (v : Idx) :
    v ∈ keep_growth_touching_rib grow rib ↔
      v ∈ grow ∧ (componentOf adj6 grow v ∩ dilateSE rib (ballSE (1, 1, 1))).Nonempty := by
  unfold keep_growth_touching_rib
  by_cases hg : grow = ∅
  · rw [if_pos hg]
    subst hg
    simp only [Finset.not_mem_empty, false_and, iff_false]
  · rw [if_neg hg]
    constructor
    · intro hv
      rw [Finset.mem_sup] at hv
      obtain ⟨C, hC, hvC⟩ := hv
      rw [Finset.mem_filter] at hC
      obtain ⟨hCcomps, hCtouch⟩ := hC
      rw [compsOf, Finset.mem_image] at hCcomps
      obtain ⟨u, hu, rfl⟩ := hCcomps
      have heq : componentOf adj6 grow v = componentOf adj6 grow u :=
        componentOf_eq_of_mem adj6_comm hvC
      exact ⟨componentOf_subset hvC, heq ▸ hCtouch⟩
    · rintro ⟨hvg, htouch⟩
      rw [Finset.mem_sup]
      refine ⟨componentOf adj6 grow v, Finset.mem_filter.2 ⟨?_, htouch⟩,
        mem_componentOf_self hvg⟩
      rw [compsOf, Finset.mem_image]
      exact ⟨v, hvg, rfl⟩

/-! ## Containment lemmas for the region grower -/

lemma region_grow_subset_inb (g : Geom) (ct : Idx → ℚ) (seeds : List PhysPt) (lo hi : ℚ)
    (cor : Finset Idx) :
    region_grow_local g ct seeds lo hi cor ⊆
      g.box.filter (fun v => lo ≤ masked_ct ct cor v ∧ masked_ct ct cor v ≤ hi) := by
  unfold region_grow_local
  split
  · intro v hv
    exact absurd hv (Finset.not_mem_empty v)
  · exact growIter_subset _ _ Finset.inter_subset_right

/-- Because voxels outside the corridor are forced to −2000, a lower bound
above −2000 confines the growth to the corridor. -/
lemma region_grow_subset_corridor {g : Geom} {ct : Idx → ℚ} {seeds : List PhysPt}
    {lo hi : ℚ} {cor : Finset Idx} (hlo : -2000 < lo) :
    region_grow_local g ct seeds lo hi cor ⊆ cor := by
  intro v hv
  have h := region_grow_subset_inb g ct seeds lo hi cor hv
  rw [Finset.mem_filter] at h
  obtain ⟨-, hlov, -⟩ := h
  by_contra hnc
  unfold masked_ct at hlov
  rw [if_neg hnc] at hlov
  linarith

lemma sideSelect_floor_ge (f : List Char) : 200 ≤ (sideSelect f).2 := by
  unfold sideSelect
  split
  · norm_num [LOWER_HU_RIGHT_MIN]
  · norm_num [LOWER_PCTL_FLOOR_R]

lemma lowerHu_ge (e : Env) : 200 ≤ e.lowerHu :=
  le_trans (sideSelect_floor_ge e.filename) (le_max_right _ _)

lemma corridor_subset_band_sphere (g : Geom) (ribs spine : Finset Idx) (ep : PhysPt)
    (r1 r2 : ℚ) :
    corridor_for_tip g ribs spine ep r1 r2 ⊆
      near_structure_band g ribs r1 ∩ tip_sphere g ep r2 := by
  unfold corridor_for_tip
  split
  · exact Finset.inter_subset_left
  · exact Finset.Subset.refl _

lemma corridor_subset_clearance (g : Geom) (ribs spine : Finset Idx) (ep : PhysPt)
    (r1 r2 : ℚ) (hs : spine.Nonempty) :
    corridor_for_tip g ribs spine ep r1 r2 ⊆ spine_clearance g spine := by
  unfold corridor_for_tip
  rw [if_pos hs]
  exact Finset.inter_subset_right

lemma growthRaw_subset_corridor (e : Env) (ep : PhysPt) :
    e.growthRaw ep ⊆ e.corridorFor ep := by
  have hlo : (-2000 : ℚ) < e.lowerHu := lt_of_lt_of_le (by norm_num) (lowerHu_ge e)
  exact region_grow_subset_corridor hlo

/-- C5: every voxel of an endpoint's region-growing result lies in the
near-rib band (distance to the rib ≤ R1), in the endpoint sphere of radius
R2, and — when the spine mask is nonempty — at distance at least the
clearance radius from the spine. -/
theorem C5_corridor_containment (e : Env) (ep : PhysPt) (v : Idx)
    (hv : v ∈ e.growthRaw ep) :
    distLE e.ctGeom e.rib v R_RIB_MM_R ∧ v ∈ tip_sphere e.ctGeom ep R_TIP_MM_R ∧
      (e.spine.Nonempty → distGE e.ctGeom e.spine v SPINE_CLEAR_MM) := by
  have hcor : v ∈ e.corridorFor ep := growthRaw_subset_corridor e ep hv
  have hparts := corridor_subset_band_sphere e.ctGeom e.rib e.spine ep R_RIB_MM_R R_TIP_MM_R hcor
  rw [Finset.mem_inter] at hparts
  obtain ⟨hband, hsphere⟩ := hparts
  rw [near_structure_band, Finset.mem_filter] at hband
  refine ⟨hband.2, hsphere, fun hs => ?_⟩
  have hcl := corridor_subset_clearance e.ctGeom e.rib e.spine ep R_RIB_MM_R R_TIP_MM_R hs hcor
  rw [spine_clearance, Finset.mem_filter] at hcl
  exact hcl.2

/-- C5 witness: in `envB`, voxel (0,2,0) is grown from the endpoint at
physical (0,16,0) and satisfies all three corridor conditions. -/
theorem C5_corridor_containment_witness :
    ((0 : ℤ), (2 : ℤ), (0 : ℤ)) ∈ envB.growthRaw ((0 : ℚ), (16 : ℚ), (0 : ℚ)) ∧
      (distLE envB.ctGeom envB.rib ((0 : ℤ), (2 : ℤ), (0 : ℤ)) R_RIB_MM_R ∧
        ((0 : ℤ), (2 : ℤ), (0 : ℤ)) ∈ tip_sphere envB.ctGeom ((0 : ℚ), (16 : ℚ), (0 : ℚ))
          R_TIP_MM_R ∧
        (envB.spine.Nonempty →
          distGE envB.ctGeom envB.spine ((0 : ℤ), (2 : ℤ), (0 : ℤ)) SPINE_CLEAR_MM)) := by
  have hmem : ((0 : ℤ), (2 : ℤ), (0 : ℤ)) ∈ envB.growthRaw ((0 : ℚ), (16 : ℚ), (0 : ℚ)) := by
    with_unfolding_all decide
  exact ⟨hmem, C5_corridor_containment envB _ _ hmem⟩

/-- C7: the lower growth bound is max(40th percentile inside the rib,
side-specific floor), the upper bound is the fixed ceiling `UPPER_HU = 1200`,
and every voxel outside the corridor is masked to −2000 — below the lower
bound — hence never reached by the seeded threshold-connected growth. -/
theorem C7_growth_bounds (e : Env) (ep : PhysPt) (v : Idx)
    (hv : v ∉ e.corridorFor ep) :
    e.lowerHu = max ((stats_percentiles_in_mask e.ctGeom e.ct e.rib [PCTL_ROBUST, 0]).headD 300)
        (sideSelect e.filename).2 ∧
    UPPER_HU = 1200 ∧
    masked_ct e.ct (e.corridorFor ep) v = -2000 ∧
    masked_ct e.ct (e.corridorFor ep) v < e.lowerHu ∧
    v ∉ e.growthRaw ep := by
  have hm : masked_ct e.ct (e.corridorFor ep) v = -2000 := by
    unfold masked_ct
    rw [if_neg hv]
  refine ⟨rfl, rfl, hm, ?_, ?_⟩
  · rw [hm]
    have h := lowerHu_ge e
    linarith
  · intro hmem
    exact hv (growthRaw_subset_corridor e ep hmem)

/-- C7 witness: in `envB`, the out-of-grid voxel (5,5,5) is outside the
corridor of the endpoint at physical (0,16,0). -/
theorem C7_growth_bounds_witness :
    ((5 : ℤ), (5 : ℤ), (5 : ℤ)) ∉ envB.corridorFor ((0 : ℚ), (16 : ℚ), (0 : ℚ)) ∧
      masked_ct envB.ct (envB.corridorFor ((0 : ℚ), (16 : ℚ), (0 : ℚ)))
          ((5 : ℤ), (5 : ℤ), (5 : ℤ)) < envB.lowerHu ∧
      ((5 : ℤ), (5 : ℤ), (5 : ℤ)) ∉ envB.growthRaw ((0 : ℚ), (16 : ℚ), (0 : ℚ)) := by
  have hv : ((5 : ℤ), (5 : ℤ), (5 : ℤ)) ∉ envB.corridorFor ((0 : ℚ), (16 : ℚ), (0 : ℚ)) := by
    with_unfolding_all decide
  have h := C7_growth_bounds envB ((0 : ℚ), (16 : ℚ), (0 : ℚ)) ((5 : ℤ), (5 : ℤ), (5 : ℤ)) hv
  exact ⟨hv, h.2.2.2.1, h.2.2.2.2⟩

/-! ## Orchestrator claims -/

lemma except_map_ok {ε α β : Type} {f : α → β} {x : Except ε α} {y : β}
    (h : x.map f = Except.ok y) : ∃ a, x = Except.ok a ∧ y = f a := by
  cases x with
  | error e => exact absurd h (by intro hc; exact Except.noConfusion hc)
  | ok a =>
    refine ⟨a, rfl, ?_⟩
    have : (Except.ok (f a) : Except ε β) = Except.ok y := h
    exact (Except.ok.injEq .. ▸ this).symm

/-- Inversion of a successful growth-path run. -/
lemma repair_ok_growth (e : Env) (out : OutImg) (hc : e.growthCandidates ≠ [])
    (hrep : repair_first_rib e = Except.ok out) :
    ∃ gs : List (Finset Idx), e.growthCandidates.mapM (growOne e) = Except.ok gs ∧
      out = ⟨e.ribGeom, resample_like e.ctGeom e.ribGeom
        (closingSE (e.rib ∪ gs.foldl (fun a b => a ∪ b) ∅)
          (ballSE FINAL_CLOSING) ∩ e.ctGeom.box)⟩ := by
  simp only [repair_first_rib] at hrep
  have hempty : e.growthCandidates.isEmpty = false := by
    cases h : e.growthCandidates with
    | nil => exact absurd h hc
    | cons a t => rfl
  rw [hempty] at hrep
  simp only [Bool.false_eq_true, if_false] at hrep
  obtain ⟨gs, hgs, hout⟩ := except_map_ok hrep
  exact ⟨gs, hgs, hout⟩

/-- C1 (amended): output ⊇ input holds unconditionally on the skip path,
and on the growth path whenever the raw rib shares the CT geometry (with
positive spacing) and its voxels lie in the grid.  With mismatched
geometries the final nearest-neighbour resampling can drop input voxels
(see `C1_monotonicity_counterexample`). -/
theorem C1_monotonicity (e : Env) (out : OutImg)
    (hgeom : e.ribGeom = e.ctGeom)
    (hsp1 : 0 < e.ctGeom.spacing.1) (hsp2 : 0 < e.ctGeom.spacing.2.1)
    (hsp3 : 0 < e.ctGeom.spacing.2.2)
    (hbox : e.ribRaw ⊆ e.ctGeom.box)
    (hrep : repair_first_rib e = Except.ok out) :
    e.ribRaw ⊆ out.mask := by
  by_cases hc : e.growthCandidates = []
  · rw [repair_skip e hc] at hrep
    injection hrep with h2
    rw [← h2]
  · obtain ⟨gs, -, hout⟩ := repair_ok_growth e out hc hrep
    rw [hout]
    intro i hi
    have hroundtrip : e.ctGeom.idxOf (e.ctGeom.phys i) = i :=
      Geom.idxOf_phys e.ctGeom i hsp1 hsp2 hsp3
    have hib : i ∈ e.ctGeom.box := hbox hi
    show i ∈ resample_like e.ctGeom e.ribGeom _
    rw [mem_resample_like, hgeom, hroundtrip]
    refine ⟨hib, hib, ?_⟩
    have hirib : i ∈ e.rib := by
      rw [Env.rib, mem_resample_like, hgeom, hroundtrip]
      exact ⟨hib, hib, hi⟩
    have hpre : i ∈ e.rib ∪ gs.foldl (fun a b => a ∪ b) ∅ := Finset.mem_union_left _ hirib
    exact Finset.mem_inter.2
      ⟨subset_closingSE (zero_mem_ballSE FINAL_CLOSING) hpre, hib⟩

/-- C1 witness: on the skip path of `envSkip` the output is the unchanged
input, a superset of itself. -/
theorem C1_monotonicity_witness :
    repair_first_rib envSkip = Except.ok ⟨envSkip.ribGeom, envSkip.ribRaw⟩ ∧
      envSkip.ribRaw ⊆ (OutImg.mk envSkip.ribGeom envSkip.ribRaw).mask := by
  have hrep : repair_first_rib envSkip = Except.ok ⟨envSkip.ribGeom, envSkip.ribRaw⟩ :=
    repair_skip envSkip (by with_unfolding_all decide)
  refine ⟨hrep, C1_monotonicity envSkip _ rfl ?_ ?_ ?_ ?_ hrep⟩
  · norm_num [envSkip, geomB]
  · norm_num [envSkip, geomB]
  · norm_num [envSkip, geomB]
  · with_unfolding_all decide

/-- C1 counterexample: with the raw rib grid (3×3×1) wider than the CT grid
(2×3×1), the growth path drops the raw voxel (2,2,0) in the final
resampling, so the written mask is not a superset of the input rib mask. -/
theorem C1_monotonicity_counterexample :
    ¬ ∀ (e : Env) (out : OutImg),
        repair_first_rib e = Except.ok out → e.ribRaw ⊆ out.mask := by
  intro h
  have hne : envC1.growthCandidates ≠ [] := by with_unfolding_all decide
  have hok : ∀ c ∈ envC1.growthCandidates, envC1.failAt c.1 = false := fun c _ => rfl
  have hrep := repair_growth envC1 hne hok
  have hsub := h envC1 _ hrep
  have hmem : ((2 : ℤ), (2 : ℤ), (0 : ℤ)) ∈ envC1.ribRaw := by with_unfolding_all decide
  have hout := hsub hmem
  dsimp only at hout
  rw [mem_resample_like] at hout
  obtain ⟨-, hidx, -⟩ := hout
  revert hidx
  with_unfolding_all decide

/-- C2 (amended): a toolkit exception while building the corridor or growing
from one accepted endpoint propagates out of `repair_first_rib` — the rib's
remaining endpoints are not grown and no output is written for that rib —
while the driver loop isolates failures per rib: each rib of a batch is
processed independently of the others. -/
theorem C2_failure_isolation :
    (∀ (e : Env) (c : PhysPt × ℚ), c ∈ e.growthCandidates → e.failAt c.1 = true →
        ∃ msg, repair_first_rib e = Except.error msg) ∧
    (∀ (envs : List Env) (i : ℕ) (h1 : i < envs.length)
        (h2 : i < (processAllRibs envs).length),
        (processAllRibs envs).get ⟨i, h2⟩ = repair_first_rib (envs.get ⟨i, h1⟩)) := by
  refine ⟨fun e c hc hfail => repair_error e c hc hfail, fun envs i h1 h2 => ?_⟩
  simp [processAllRibs]

/-- C2 witness: in `envB2` the first accepted endpoint's toolkit call fails
and the rib run raises. -/
theorem C2_failure_isolation_witness :
    (((0 : ℚ), (16 : ℚ), (0 : ℚ)), (0 : ℚ)) ∈ envB2.growthCandidates ∧
      envB2.failAt ((0 : ℚ), (16 : ℚ), (0 : ℚ)) = true ∧
      ∃ msg, repair_first_rib envB2 = Except.error msg := by
  have hc : (((0 : ℚ), (16 : ℚ), (0 : ℚ)), (0 : ℚ)) ∈ envB2.growthCandidates := by
    with_unfolding_all decide
  have hf : envB2.failAt ((0 : ℚ), (16 : ℚ), (0 : ℚ)) = true := by
    with_unfolding_all decide
  exact ⟨hc, hf, C2_failure_isolation.1 envB2 _ hc hf⟩

/-- C2 counterexample: `envB2` has two accepted endpoints and an exception
in the first endpoint's growth; contrary to the claim, growth for the
sibling endpoint and the writing of the rib's output do not take place —
`repair_first_rib` returns an error instead of any output. -/
theorem C2_per_endpoint_isolation_counterexample :
    envB2.growthCandidates.length = 2 ∧
      repair_first_rib envB2 = Except.error "growth failure" := by
  constructor
  · with_unfolding_all decide
  · with_unfolding_all rfl

/-- C3: with an empty candidate list the written file is exactly the
original, unresampled raw rib image — a non-error outcome — whereas on
success the written mask is a closing resampled from CT space into the raw
geometry. -/
theorem C3_skip_writes_original (e : Env) :
    (e.growthCandidates = [] → repair_first_rib e = Except.ok ⟨e.ribGeom, e.ribRaw⟩) ∧
    (∀ out : OutImg, e.growthCandidates ≠ [] → repair_first_rib e = Except.ok out →
      ∃ pre, out.mask = resample_like e.ctGeom e.ribGeom
        (closingSE pre (ballSE FINAL_CLOSING) ∩ e.ctGeom.box)) := by
  refine ⟨repair_skip e, fun out hne hrep => ?_⟩
  obtain ⟨gs, -, hout⟩ := repair_ok_growth e out hne hrep
  rw [hout]
  exact ⟨_, rfl⟩

/-- C3 witness: `envSkip` has skeleton endpoints but no accepted candidate,
and the written output is its raw input unchanged. -/
theorem C3_skip_writes_original_witness :
    envSkip.growthCandidates = [] ∧
      repair_first_rib envSkip = Except.ok ⟨envSkip.ribGeom, envSkip.ribRaw⟩ := by
  have hc : envSkip.growthCandidates = [] := by with_unfolding_all decide
  exact ⟨hc, (C3_skip_writes_original envSkip).1 hc⟩

/-- C4 (amended): an endpoint failing the anatomical gate receives the
sentinel fraction `1.0` — numerically a contamination value, not a distinct
outcome — and is never accepted for growth under either side's cutoff,
both cutoffs being < 1. -/
theorem C4_ineligible_never_accepted (g : Geom) (ct : Idx → ℚ) (ribs : Finset Idx)
    (ep : PhysPt)
    (hgate : anatomical_gate g ep POSTERIOR_Y_IDX_MIN_FRAC MIDLINE_X_TOL_MM = false) :
    endpoint_is_posterior_missing_tubercle g ct ribs ep NBHD_RADIUS_MM NBHD_BONE_HU
        POSTERIOR_Y_IDX_MIN_FRAC MIDLINE_X_TOL_MM = 1 ∧
      ¬ endpoint_is_posterior_missing_tubercle g ct ribs ep NBHD_RADIUS_MM NBHD_BONE_HU
          POSTERIOR_Y_IDX_MIN_FRAC MIDLINE_X_TOL_MM ≤ NBHD_BONE_FRAC_LEFT_CUTOFF ∧
      ¬ endpoint_is_posterior_missing_tubercle g ct ribs ep NBHD_RADIUS_MM NBHD_BONE_HU
          POSTERIOR_Y_IDX_MIN_FRAC MIDLINE_X_TOL_MM ≤ NBHD_BONE_FRAC_RIGHT_CUTOFF := by
  have h1 : endpoint_is_posterior_missing_tubercle g ct ribs ep NBHD_RADIUS_MM NBHD_BONE_HU
      POSTERIOR_Y_IDX_MIN_FRAC MIDLINE_X_TOL_MM = 1 := by
    unfold endpoint_is_posterior_missing_tubercle
    rw [hgate]
    rfl
  rw [h1]
  refine ⟨rfl, ?_, ?_⟩
  · norm_num [NBHD_BONE_FRAC_LEFT_CUTOFF]
  · norm_num [NBHD_BONE_FRAC_RIGHT_CUTOFF]

/-- C4 witness: the point (0,0,0) of `envC4` fails the anatomical gate and
its sentinel value 1 is rejected by both cutoffs. -/
theorem C4_ineligible_never_accepted_witness :
    anatomical_gate geomC4 ((0 : ℚ), (0 : ℚ), (0 : ℚ)) POSTERIOR_Y_IDX_MIN_FRAC
        MIDLINE_X_TOL_MM = false ∧
      endpoint_is_posterior_missing_tubercle geomC4 envC4.ct envC4.rib
        ((0 : ℚ), (0 : ℚ), (0 : ℚ)) NBHD_RADIUS_MM NBHD_BONE_HU POSTERIOR_Y_IDX_MIN_FRAC
        MIDLINE_X_TOL_MM = 1 := by
  have hg : anatomical_gate geomC4 ((0 : ℚ), (0 : ℚ), (0 : ℚ)) POSTERIOR_Y_IDX_MIN_FRAC
      MIDLINE_X_TOL_MM = false := by with_unfolding_all decide
  exact ⟨hg, (C4_ineligible_never_accepted geomC4 envC4.ct envC4.rib _ hg).1⟩

/-- C4 counterexample: the sentinel of the gate-failing point (0,0,0) equals
the genuine fraction of the gate-passing, fully contaminated point (0,48,0):
ineligibility is *not* represented as an outcome distinct from a numeric
contamination value. -/
theorem C4_sentinel_conflation_counterexample :
    anatomical_gate geomC4 ((0 : ℚ), (0 : ℚ), (0 : ℚ)) POSTERIOR_Y_IDX_MIN_FRAC
        MIDLINE_X_TOL_MM = false ∧
      anatomical_gate geomC4 ((0 : ℚ), (48 : ℚ), (0 : ℚ)) POSTERIOR_Y_IDX_MIN_FRAC
        MIDLINE_X_TOL_MM = true ∧
      envC4.classify ((0 : ℚ), (0 : ℚ), (0 : ℚ)) = 1 ∧
      envC4.classify ((0 : ℚ), (48 : ℚ), (0 : ℚ)) = 1 := by
  refine ⟨?_, ?_, ?_, ?_⟩ <;> with_unfolding_all decide

/-- C6: an anatomically eligible endpoint is accepted exactly when its
contamination fraction passes the side's hard cutoff, and the synthetic
fraction 0.02 is accepted by the left cutoff 0.05 but rejected by the right
cutoff 0.005. -/
theorem C6_cutoff_acceptance (e : Env) (ep : PhysPt)
    (hep : ep ∈ e.endpointsList)
    (hgate : anatomical_gate e.ctGeom ep POSTERIOR_Y_IDX_MIN_FRAC MIDLINE_X_TOL_MM = true) :
    ((∃ f, (ep, f) ∈ e.growthCandidates) ↔ e.classify ep ≤ e.activeCutoff) ∧
      ((2/100 : ℚ) ≤ NBHD_BONE_FRAC_LEFT_CUTOFF ∧
        ¬ (2/100 : ℚ) ≤ NBHD_BONE_FRAC_RIGHT_CUTOFF) := by
  refine ⟨?_, by norm_num [NBHD_BONE_FRAC_LEFT_CUTOFF], by norm_num [NBHD_BONE_FRAC_RIGHT_CUTOFF]⟩
  unfold Env.growthCandidates
  constructor
  · rintro ⟨f, hf⟩
    rw [List.mem_filterMap] at hf
    obtain ⟨a, ha, hFa⟩ := hf
    by_cases hle : e.classify a ≤ e.activeCutoff
    · rw [if_pos hle] at hFa
      injection hFa with h1
      obtain ⟨rfl, -⟩ := Prod.mk.injEq .. ▸ h1
      exact hle
    · rw [if_neg hle] at hFa
      exact absurd hFa (by intro hc; exact Option.noConfusion hc)
  · intro hle
    exact ⟨e.classify ep, List.mem_filterMap.2 ⟨ep, hep, by rw [if_pos hle]⟩⟩

/-- C6 witness: the endpoint at physical (0,16,0) of `envB` is eligible and
accepted. -/
theorem C6_cutoff_acceptance_witness :
    ((0 : ℚ), (16 : ℚ), (0 : ℚ)) ∈ envB.endpointsList ∧
      (∃ f, (((0 : ℚ), (16 : ℚ), (0 : ℚ)), f) ∈ envB.growthCandidates) := by
  have hep : ((0 : ℚ), (16 : ℚ), (0 : ℚ)) ∈ envB.endpointsList := by
    with_unfolding_all decide
  have hgate : anatomical_gate envB.ctGeom ((0 : ℚ), (16 : ℚ), (0 : ℚ))
      POSTERIOR_Y_IDX_MIN_FRAC MIDLINE_X_TOL_MM = true := by with_unfolding_all decide
  have hle : envB.classify ((0 : ℚ), (16 : ℚ), (0 : ℚ)) ≤ envB.activeCutoff := by
    with_unfolding_all decide
  exact ⟨hep, ((C6_cutoff_acceptance envB _ hep hgate).1).2 hle⟩

/-! ## C10: filename-keyed side selection -/

/-- ASCII lower-casing of one character (`str.lower()`). -/
def asciiLower (c : Char) : Char :=
  if 'A' ≤ c ∧ c ≤ 'Z' then Char.ofNat (c.toNat + 32) else c

/-- Embedding of `stem_no_ext`: lower-case the filename and strip a `.nii.gz` or `.nii`
extension. -/
def stem_no_ext (f : List Char) : List Char :=
  let l := f.map asciiLower
  if ".nii.gz".toList <:+ l then l.take (l.length - 7)
  else if ".nii".toList <:+ l then l.take (l.length - 4)
  else l

/-- The finite language of `STEM_RE` (`^rib[-_](left|right)[-_]0?1$`,
case-insensitive, on lower-cased stems). -/
def firstRibStems : List (List Char) :=
  ["rib-left-1", "rib-left_1", "rib_left-1", "rib_left_1",
   "rib-left-01", "rib-left_01", "rib_left-01", "rib_left_01",
   "rib-right-1", "rib-right_1", "rib_right-1", "rib_right_1",
   "rib-right-01", "rib-right_01", "rib_right-01", "rib_right_01"].map String.toList

/-- The per-file test of `list_first_ribs`: a `.nii` / `.nii.gz` file whose
stem matches `STEM_RE`. -/
def first_rib_filename (f : List Char) : Bool :=
  let l := f.map asciiLower
  (decide (".nii".toList <:+ l) || decide (".nii.gz".toList <:+ l)) &&
    decide (stem_no_ext f ∈ firstRibStems)

/-- C10: the cutoff and HU floor depend solely on whether the filename
contains the substring "rib_right_1" (right: 0.005 and fixed floor 400;
any other name: 0.05 and the adaptive floor max(percentile, 200)); in
particular the file "rib-right-01.nii.gz", which the batch matcher accepts
as a right first rib, still receives the left-side parameters. -/
theorem C10_side_selection :
    (∀ fn : List Char,
        (sideSelect fn = (NBHD_BONE_FRAC_RIGHT_CUTOFF, LOWER_HU_RIGHT_MIN) ↔
          rightTag <:+: fn) ∧
        (¬ rightTag <:+: fn →
          sideSelect fn = (NBHD_BONE_FRAC_LEFT_CUTOFF, LOWER_PCTL_FLOOR_R))) ∧
    (∀ e : Env, e.lowerHu = max e.pctlVal (sideSelect e.filename).2) ∧
    (NBHD_BONE_FRAC_RIGHT_CUTOFF = 5/1000 ∧ LOWER_HU_RIGHT_MIN = 400 ∧
      NBHD_BONE_FRAC_LEFT_CUTOFF = 5/100 ∧ LOWER_PCTL_FLOOR_R = 200) ∧
    (first_rib_filename "rib-right-01.nii.gz".toList = true ∧
      ¬ rightTag <:+: "rib-right-01.nii.gz".toList ∧
      sideSelect "rib-right-01.nii.gz".toList =
        (NBHD_BONE_FRAC_LEFT_CUTOFF, LOWER_PCTL_FLOOR_R)) := by
  refine ⟨fun fn => ?_, fun e => rfl, ⟨rfl, rfl, rfl, rfl⟩, ?_, ?_, ?_⟩
  · constructor
    · unfold sideSelect
      by_cases h : rightTag <:+: fn
      · rw [if_pos h]
        exact ⟨fun _ => h, fun _ => rfl⟩
      · rw [if_neg h]
        refine ⟨fun he => ?_, fun h2 => absurd h2 h⟩
        exfalso
        have h1 := congrArg Prod.fst he
        rw [NBHD_BONE_FRAC_LEFT_CUTOFF, NBHD_BONE_FRAC_RIGHT_CUTOFF] at h1
        norm_num at h1
    · intro hni
      unfold sideSelect
      rw [if_neg hni]
  · with_unfolding_all decide
  · with_unfolding_all decide
  · with_unfolding_all decide

/-- C10 witness: the regex-matching right-rib filename "rib-right-01.nii.gz"
does not contain the substring "rib_right_1" and therefore gets the
left-side parameters. -/
theorem C10_side_selection_witness :
    ¬ rightTag <:+: "rib-right-01.nii.gz".toList ∧
      sideSelect "rib-right-01.nii.gz".toList =
        (NBHD_BONE_FRAC_LEFT_CUTOFF, LOWER_PCTL_FLOOR_R) := by
  have hn : ¬ rightTag <:+: "rib-right-01.nii.gz".toList := by with_unfolding_all decide
  exact ⟨hn, ((C10_side_selection).1 "rib-right-01.nii.gz".toList).2 hn⟩
